import Mathlib

/-!
Verification of the learnit feature-engineering core against its
specification.

The repository material at hand is the feature-engineering notebook, which
defines two transformer classes (`TitleEncoder`, `TransformerTemplate`) and
exercises the library's `AutoConverter` orchestrator and `check_transformer`
harness.  The transformer classes are embedded directly from that source.
The orchestrator and the harness themselves are not part of the available
source files, so they are modelled from the specification (each such
definition carries a doc comment starting `Modelled from the spec:`).

Conventions of the shallow embedding:
* a dataset is an ordered association list from column name to the column's
  values (strings model the raw cell values);
* a feature block is a list of rows, each row a list of natural numbers
  (the concrete feature values proved about here are 0/1 indicators and
  constant fillers, so `Nat` suffices);
* a Python `None`-able result is an `Option`, a fallible call is an
  `Except`.
-/

set_option autoImplicit false
set_option maxRecDepth 8192

namespace Learnit

/-- Feature block: a list of rows, each row a list of numeric values.
Embeds the `(N, M)` numpy arrays returned by transformers. -/
abbrev Block := List (List Nat)

/-- Column count of a block, as numpy's `shape[1]`: the length of the first
row (0 for an empty block). -/
def ncols (b : Block) : Nat :=
  match b with
  | [] => 0
  | r :: _ => r.length

/-- Membership-based substring test on the underlying character lists:
`startsWithL n h` holds when `n` is a prefix of `h`.  Embeds the prefix
step of Python's `in` operator on strings. -/
def startsWithL : List Char → List Char → Bool
  | [], _ => true
  | _ :: _, [] => false
  | a :: as, b :: bs => a == b && startsWithL as bs

/-- Occurrence test: `occursL n h` holds when `n` occurs contiguously in
`h`.  Embeds Python's `needle in haystack` on strings. -/
def occursL (n : List Char) : List Char → Bool
  | [] => n.isEmpty
  | c :: t => startsWithL n (c :: t) || occursL n t

/-- String containment, `strContains x t` embeds Python's `t in x`. -/
def strContains (x t : String) : Bool :=
  occursL t.data x.data

namespace TitleEncoder

/-- Default title list of `TitleEncoder.__init__`.  The source writes
`["Mr.", "Ms." "Mrs.", "Miss."]`: the two adjacent string literals
`"Ms." "Mrs."` concatenate, so the list has three elements. -/
def default_title_list : List String :=
  ["Mr.", "Ms." ++ "Mrs.", "Miss."]

/-- Indicator column entry of `TitleEncoder.transform` for one title and
one cell: `s.apply(lambda x: title in x).astype("int")`. -/
def titleIndicator (title x : String) : Nat :=
  if strContains x title then 1 else 0

/-- Row of the block produced by `TitleEncoder.transform` for one input
cell: one 0/1 indicator per title in order, then the `"None"` column,
which is 1 exactly when the indicator sum is 0
(`(df.sum(axis=1) == 0).astype("int")`). -/
def transformRow (title_list : List String) (x : String) : List Nat :=
  let inds := title_list.map (fun t => titleIndicator t x)
  inds ++ [if inds.sum = 0 then 1 else 0]

/-- Embeds `TitleEncoder.transform`: the `(N, 1)` input array is the list
of its cells; the output block has one row per input row, laid out as
`transformRow`. -/
def transform (title_list : List String) (X : List String) : Block :=
  X.map (transformRow title_list)

/-- Embeds `TitleEncoder.fit`: it does nothing and returns `self`, so on a
transformer state it is the identity. -/
def fit (title_list : List String) : List String :=
  title_list

/-- Embeds `TitleEncoder.get_feature_names`:
`self.title_list + ["Others"]`. -/
def get_feature_names (title_list : List String) : List String :=
  title_list ++ ["Others"]

end TitleEncoder

namespace TransformerTemplate

/-- Embeds `TransformerTemplate.transform`: the source returns
`[[1] * len(X)]`, a list containing a single row of `len(X)` ones. -/
def transform (X : List String) : Block :=
  [List.replicate X.length 1]

/-- Embeds `TransformerTemplate.get_feature_names`: `["feature name"]`. -/
def get_feature_names : List String :=
  ["feature name"]

end TransformerTemplate

/-- Modelled from the spec: the return value of a transformer's fit
operation, as observed by the identity check of the contract harness
(`the return value is not the transformer itself`).  Python compares with
`is`; the embedding records whether the literally returned object was the
receiver. -/
inductive FitResult where
  | self : FitResult
  | otherObject : FitResult
deriving DecidableEq, Repr

/-- Modelled from the spec: the fixed capability contract of a transformer
as the orchestrator and the harness consume it (spec section 4.3 and 6).
`fitRes` is the fit call's return observed through the identity check;
`transform` runs fit-then-transform on the column's values and returns the
extracted block, or `none` when the transform call raises;
`feature_names` is the optional naming capability, reading the state
fitted on the given column values. -/
structure MTransformer where
  fitRes : List String → FitResult
  transform : List String → Option Block
  feature_names : Option (List String → List String)

/-- Modelled from the spec: the contract-violation taxonomy of the
transformer contract checker (spec sections 4.3 and 7), plus the
column-extraction failure the spec leaves implicit. -/
inductive Violation where
  | NotSelfReturned : Violation
  | TransformRaised : Violation
  | ShapeMismatch (expected actual : Nat) : Violation
  | FeatureNameLengthMismatch (expected actual : Nat) : Violation
  | ColumnMissing : Violation
deriving DecidableEq, Repr

/-- Dataset: ordered association list from column name to that column's
values.  Embeds the data frame the notebook reads
(column order is the stored sequence). -/
abbrev Dataset := List (String × List String)

/-- Modelled from the spec: positional feature names synthesized when a
transformer lacks the naming capability — column name plus ordinal index
(spec section 3, FeatureNameList). -/
def synthNames (col : String) (M : Nat) : List String :=
  (List.range M).map (fun i => col ++ "_" ++ toString i)

/-- Modelled from the spec: `check_transformer` of
`learnit.autoconverter.autoconverter` (not among the available source
files; spec section 4.3).  Extracts the named column, invokes fit and
reports `NotSelfReturned` unless it returned the transformer itself,
invokes transform and reports `TransformRaised` on a raise or
`ShapeMismatch` when the row count differs from N, then checks the
feature-name length against the output column count M, synthesizing
positional names when naming is absent.  On success it reports the block
and the names. -/
def check_transformer (ds : Dataset) (col : String) (t : MTransformer) :
    Except Violation (Block × List String) :=
  match ds.lookup col with
  | none => .error .ColumnMissing
  | some vals =>
    let N := vals.length
    if t.fitRes vals ≠ .self then
      .error .NotSelfReturned
    else
      match t.transform vals with
      | none => .error .TransformRaised
      | some b =>
        if b.length ≠ N then
          .error (.ShapeMismatch N b.length)
        else
          let M := ncols b
          match t.feature_names with
          | some f =>
            let names := f vals
            if names.length ≠ M then
              .error (.FeatureNameLengthMismatch M names.length)
            else
              .ok (b, names)
          | none => .ok (b, synthNames col M)

/-- Modelled from the spec: the check is advisory and local — it is a
module-level function that reads no orchestrator state and writes none
(spec: `a failed check does not mutate any orchestrator state`).  The
state-passing wrapper makes that explicit for an arbitrary state type. -/
def check_transformer_run {σ : Type} (s : σ) (ds : Dataset) (col : String)
    (t : MTransformer) : Except Violation (Block × List String) × σ :=
  (check_transformer ds col t, s)

/-- Modelled from the spec: the override-vs-merge policy, `Override` when
`use_column_converter_only` is true (the default), `Merge` otherwise. -/
inductive MergePolicy where
  | Override : MergePolicy
  | Merge : MergePolicy
deriving DecidableEq, Repr

/-- Modelled from the spec: the AutoConverter configuration — target
column name, per-column converter overrides, and the boolean policy flag
(default true, selecting `Override`). -/
structure ACConfig where
  target : String
  column_converters : List (String × List MTransformer) := []
  use_column_converter_only : Bool := true

/-- Policy selected by an AutoConverter configuration. -/
def ACConfig.policy (cfg : ACConfig) : MergePolicy :=
  if cfg.use_column_converter_only then .Override else .Merge

/-- Modelled from the spec: the effective pipeline of one column (spec
section 4.4 step 3): the override list alone under `Override`, the
default list followed by the override list under `Merge`, and the default
list when the column has no override entry. -/
def pipelineFor (defaultOf : String → List MTransformer)
    (ovs : List (String × List MTransformer)) (policy : MergePolicy)
    (c : String) : List MTransformer :=
  match ovs.lookup c with
  | some ov =>
    match policy with
    | .Override => ov
    | .Merge => defaultOf c ++ ov
  | none => defaultOf c

/-- Modelled from the spec: the errors of the orchestrator's fit path. -/
inductive ACError where
  | UnknownTarget : ACError
  | ColumnProcessingError (col : String) : ACError
deriving DecidableEq, Repr

/-- Modelled from the spec: apply one column's effective pipeline in
order — fit and transform each transformer on the column's values and
validate the row count against N, aborting with a
`ColumnProcessingError` on a raise or a row-count violation (spec
section 4.4 step 4). -/
def applyPipeline (N : Nat) (c : String) (vals : List String) :
    List MTransformer → Except ACError (List Block)
  | [] => .ok []
  | t :: ts =>
    match t.transform vals with
    | none => .error (.ColumnProcessingError c)
    | some b =>
      if b.length = N then
        (applyPipeline N c vals ts).map (fun bs => b :: bs)
      else
        .error (.ColumnProcessingError c)

/-- Modelled from the spec: process every non-target column in dataset
order, collecting all per-transformer blocks in the fixed order — dataset
column order outer, pipeline order inner. -/
def processCols (defaultOf : String → List MTransformer)
    (ovs : List (String × List MTransformer)) (policy : MergePolicy)
    (N : Nat) : Dataset → Except ACError (List Block)
  | [] => .ok []
  | (c, vals) :: rest => do
    let bs ← applyPipeline N c vals (pipelineFor defaultOf ovs policy c)
    let more ← processCols defaultOf ovs policy N rest
    return bs ++ more

/-- Horizontal concatenation of blocks that each have N rows: row i of the
result is the concatenation of the blocks' rows i.  Embeds the horizontal
assembly of the per-transformer blocks into the FeatureMatrix. -/
def hconcat (N : Nat) : List Block → Block
  | [] => List.replicate N []
  | b :: bs => List.zipWith (fun r s => r ++ s) b (hconcat N bs)

/-- Modelled from the spec: `AutoConverter.fit_transform` (spec section
4.4).  It validates that the target column exists, computes each
non-target column's effective pipeline, fits and applies the pipelines in
the fixed order validating every block's row count, and concatenates the
blocks horizontally into the FeatureMatrix, returning it with the target
column's values.  `defaultOf` is the composition of the column type
classifier and the default pipeline registry, both external collaborators
of the core. -/
def fit_transform (defaultOf : String → List MTransformer) (cfg : ACConfig)
    (ds : Dataset) : Except ACError (Block × List String) :=
  match ds.lookup cfg.target with
  | none => .error .UnknownTarget
  | some tvals =>
    let N := tvals.length
    let nonTarget := ds.filter (fun p => p.1 ≠ cfg.target)
    match processCols defaultOf cfg.column_converters cfg.policy N nonTarget with
    | .error e => .error e
    | .ok blocks => .ok (hconcat N blocks, tvals)

/-! ### Width bookkeeping

To reason about matrix widths we use a width assignment `tw` for
transformers.  `FixedWidth tw t` says every block `t` produces has rows of
length `tw t`; the built-in transformers of the registry and the example
transformers all satisfy it. -/

/-- Total output width of a pipeline under a width assignment. -/
def pwidth (tw : MTransformer → Nat) (ps : List MTransformer) : Nat :=
  (ps.map tw).sum

/-- Transformer with fixed output width `tw t`: every produced block has
rows of exactly that length. -/
def FixedWidth (tw : MTransformer → Nat) (t : MTransformer) : Prop :=
  ∀ vals b, t.transform vals = some b → ∀ r ∈ b, r.length = tw t

/-- Widths of the per-transformer blocks the orchestrator collects for a
dataset, in the fixed order: dataset column order outer, pipeline order
inner. -/
def blockWidths (tw : MTransformer → Nat)
    (defaultOf : String → List MTransformer)
    (ovs : List (String × List MTransformer)) (policy : MergePolicy)
    (ds : Dataset) : List Nat :=
  (ds.map (fun p => (pipelineFor defaultOf ovs policy p.1).map tw)).flatten

/-- Total width of the feature matrix the orchestrator assembles for a
dataset: the sum of the effective-pipeline widths over the columns. -/
def matrixWidth (tw : MTransformer → Nat)
    (defaultOf : String → List MTransformer)
    (ovs : List (String × List MTransformer)) (policy : MergePolicy)
    (ds : Dataset) : Nat :=
  (ds.map (fun p => pwidth tw (pipelineFor defaultOf ovs policy p.1))).sum

/-- The example's custom transformer packaged for the orchestrator and the
harness: `TitleEncoder` fits by returning itself, transforms a column to
its title-indicator block, and names its features. -/
def titleEncoderT (title_list : List String) : MTransformer where
  fitRes := fun _ => .self
  transform := fun vals => some (TitleEncoder.transform title_list vals)
  feature_names := some (fun _ => TitleEncoder.get_feature_names title_list)

/-- Modelled from the spec: a stand-in for a built-in registry transformer
of fixed output width `w` (the built-in encoders are external
collaborators; only their widths matter here).  It fits by returning
itself and produces an `N × w` numeric block. -/
def mkConst (w : Nat) : MTransformer where
  fitRes := fun _ => .self
  transform := fun vals => some (vals.map (fun _ => List.replicate w 0))
  feature_names := none

/-- Width assignment probing a transformer on a one-cell column: the
column count of the block it produces there. -/
def widthOf (t : MTransformer) : Nat :=
  match t.transform [""] with
  | some b => ncols b
  | none => 0

/-- Row-preserving transformer: its transform always yields a block with
one row per input row (the shape half of the transformer contract). -/
def RowPreserving (t : MTransformer) : Prop :=
  ∀ vals, ∃ b, t.transform vals = some b ∧ b.length = vals.length

/-- Width contributed by the override pipelines of the overridden columns
of a dataset: the sum, over columns holding an override entry, of that
entry's pipeline width. -/
def overrideContribWidth (tw : MTransformer → Nat)
    (ovs : List (String × List MTransformer)) (ds : Dataset) : Nat :=
  (ds.map (fun p =>
    match ovs.lookup p.1 with
    | some ov => pwidth tw ov
    | none => 0)).sum

/-- Width of the overridden columns' default pipelines: the sum, over
columns holding an override entry, of the default pipeline width the
override would replace under the Override policy. -/
def replacedDefaultWidth (tw : MTransformer → Nat)
    (defaultOf : String → List MTransformer)
    (ovs : List (String × List MTransformer)) (ds : Dataset) : Nat :=
  (ds.map (fun p =>
    match ovs.lookup p.1 with
    | some _ => pwidth tw (defaultOf p.1)
    | none => 0)).sum

/-! ### The notebook's example scenario

The notebook runs the orchestrator on the 881-row Titanic training set.
The data file and the registry's built-in pipelines are external to the
available source, so they are modelled from the spec's recorded facts:
881 rows, target `"Survived"`, baseline width 1215, Override width 708 and
Merge width 1219 when column `"Name"` is overridden with `TitleEncoder`
(which contributes 4 features).  Those widths force the `"Name"` default
pipeline's contribution to be 1215 − (708 − 4) = 511, and the remaining
non-target columns jointly contribute 704; the latter are aggregated into
one stand-in column since the spec records nothing further about them. -/

/-- Modelled from the spec: stand-in for the 881-row example dataset. -/
def exampleDS : Dataset :=
  [("Survived", List.replicate 881 "0"),
   ("Name", List.replicate 881 "Mr. X"),
   ("OtherColumns", List.replicate 881 "v")]

/-- Modelled from the spec: the registry's default pipelines of the
example, by recorded width — 511 for `"Name"`, 704 for the aggregate of
the other non-target columns. -/
def exampleDefaultOf (c : String) : List MTransformer :=
  if c = "Name" then [mkConst 511]
  else if c = "OtherColumns" then [mkConst 704]
  else []

/-- The example override: column `"Name"` gets the single custom
transformer, a default-constructed `TitleEncoder`. -/
def exampleOverrides : List (String × List MTransformer) :=
  [("Name", [titleEncoderT TitleEncoder.default_title_list])]

/-- Baseline example configuration: no overrides. -/
def exampleBaseCfg : ACConfig :=
  { target := "Survived" }

/-- Example configuration overriding `"Name"` under the default Override
policy. -/
def exampleOverrideCfg : ACConfig :=
  { target := "Survived", column_converters := exampleOverrides }

/-- Example configuration overriding `"Name"` under the Merge policy
(`use_column_converter_only=False`). -/
def exampleMergeCfg : ACConfig :=
  { target := "Survived", column_converters := exampleOverrides,
    use_column_converter_only := false }

/-! ### Helper lemmas -/

theorem mem_zipWith {α β γ : Type} {f : α → β → γ} :
    ∀ {as : List α} {bs : List β} {c : γ}, c ∈ List.zipWith f as bs →
      ∃ a ∈ as, ∃ b ∈ bs, c = f a b := by
  intro as
  induction as with
  | nil => intro bs c h; simp [List.zipWith] at h
  | cons a as ih =>
    intro bs c h
    cases bs with
    | nil => simp [List.zipWith] at h
    | cons b bs =>
      simp only [List.zipWith, List.mem_cons] at h
      rcases h with h | h
      · exact ⟨a, by simp, b, by simp, h⟩
      · rcases ih h with ⟨a0, ha, b0, hb, hc⟩
        exact ⟨a0, by simp [ha], b0, by simp [hb], hc⟩

theorem forall₂_imp_mem {α β : Type} {R S : α → β → Prop} :
    ∀ {l₁ : List α} {l₂ : List β}, List.Forall₂ R l₁ l₂ →
      (∀ a ∈ l₁, ∀ b, R a b → S a b) → List.Forall₂ S l₁ l₂ := by
  intro l₁ l₂ h
  induction h with
  | nil => intro _; exact List.Forall₂.nil
  | cons hab _ ih =>
    intro hmem
    exact List.Forall₂.cons (hmem _ (by simp) _ hab)
      (ih (fun a ha b hr => hmem a (by simp [ha]) b hr))

theorem applyPipeline_ok_forall₂ {N : Nat} {c : String} {vals : List String}
    {ps : List MTransformer} {bs : List Block}
    (h : applyPipeline N c vals ps = .ok bs) :
    List.Forall₂ (fun t b => t.transform vals = some b ∧ b.length = N) ps bs := by
  induction ps generalizing bs with
  | nil =>
    simp only [applyPipeline, Except.ok.injEq] at h
    subst h; exact List.Forall₂.nil
  | cons t ts ih =>
    simp only [applyPipeline] at h
    split at h
    case h_1 htr => exact absurd h (by simp)
    case h_2 b htr =>
      split at h
      case isTrue hlen =>
        cases hrec : applyPipeline N c vals ts with
        | error e => rw [hrec] at h; exact absurd h (by simp [Except.map])
        | ok bs0 =>
          rw [hrec] at h
          simp only [Except.map, Except.ok.injEq] at h
          subst h
          exact List.Forall₂.cons ⟨htr, hlen⟩ (ih hrec)
      case isFalse hlen => exact absurd h (by simp)

theorem applyPipeline_ok_of {N : Nat} {c : String} {vals : List String}
    {ps : List MTransformer}
    (h : ∀ t ∈ ps, ∃ b, t.transform vals = some b ∧ b.length = N) :
    ∃ bs, applyPipeline N c vals ps = .ok bs := by
  induction ps with
  | nil => exact ⟨[], rfl⟩
  | cons t ts ih =>
    rcases h t (by simp) with ⟨b, htr, hlen⟩
    rcases ih (fun t ht => h t (by simp [ht])) with ⟨bs, hbs⟩
    refine ⟨b :: bs, ?_⟩
    simp [applyPipeline, htr, hlen, hbs, Except.map]

theorem processCols_ok_forall₂ {tw : MTransformer → Nat}
    {defaultOf : String → List MTransformer}
    {ovs : List (String × List MTransformer)} {policy : MergePolicy}
    {N : Nat} {ds : Dataset} {bs : List Block}
    (hfw : ∀ p ∈ ds, ∀ t ∈ pipelineFor defaultOf ovs policy p.1, FixedWidth tw t)
    (h : processCols defaultOf ovs policy N ds = .ok bs) :
    List.Forall₂ (fun w b => b.length = N ∧ ∀ r ∈ b, r.length = w)
      (blockWidths tw defaultOf ovs policy ds) bs := by
  induction ds generalizing bs with
  | nil =>
    simp only [processCols, Except.ok.injEq] at h
    subst h
    simp [blockWidths]
  | cons p rest ih =>
    obtain ⟨c, vals⟩ := p
    simp only [processCols, bind, Except.bind] at h
    cases hap : applyPipeline N c vals (pipelineFor defaultOf ovs policy c) with
    | error e => rw [hap] at h; exact absurd h (by simp)
    | ok bs1 =>
      rw [hap] at h
      cases hpc : processCols defaultOf ovs policy N rest with
      | error e => rw [hpc] at h; exact absurd h (by simp)
      | ok bs2 =>
        rw [hpc] at h
        simp only [pure, Except.pure, Except.ok.injEq] at h
        subst h
        have h1 := applyPipeline_ok_forall₂ hap
        have h1w : List.Forall₂ (fun w b => b.length = N ∧ ∀ r ∈ b, r.length = w)
            ((pipelineFor defaultOf ovs policy c).map tw) bs1 := by
          rw [List.forall₂_map_left_iff]
          refine forall₂_imp_mem h1 ?_
          intro t ht b hb
          exact ⟨hb.2, hfw (c, vals) (by simp) t ht vals b hb.1⟩
        have h2 := ih (fun q hq => hfw q (by simp [hq])) hpc
        have : blockWidths tw defaultOf ovs policy ((c, vals) :: rest) =
            (pipelineFor defaultOf ovs policy c).map tw ++
              blockWidths tw defaultOf ovs policy rest := by
          simp [blockWidths]
        rw [this]
        exact List.rel_append h1w h2

theorem processCols_ok_of {defaultOf : String → List MTransformer}
    {ovs : List (String × List MTransformer)} {policy : MergePolicy}
    {N : Nat} {ds : Dataset}
    (h : ∀ p ∈ ds, ∀ t ∈ pipelineFor defaultOf ovs policy p.1,
      ∃ b, t.transform p.2 = some b ∧ b.length = N) :
    ∃ bs, processCols defaultOf ovs policy N ds = .ok bs := by
  induction ds with
  | nil => exact ⟨[], rfl⟩
  | cons p rest ih =>
    obtain ⟨c, vals⟩ := p
    rcases applyPipeline_ok_of (c := c) (h (c, vals) (by simp)) with ⟨bs1, h1⟩
    rcases ih (fun q hq => h q (by simp [hq])) with ⟨bs2, h2⟩
    exact ⟨bs1 ++ bs2, by simp [processCols, bind, Except.bind, h1, h2, pure, Except.pure]⟩

theorem hconcat_spec {N : Nat} {ws : List Nat} {bs : List Block}
    (h : List.Forall₂ (fun w b => b.length = N ∧ ∀ r ∈ b, r.length = w) ws bs) :
    (hconcat N bs).length = N ∧ ∀ r ∈ hconcat N bs, r.length = ws.sum := by
  induction h with
  | nil =>
    constructor
    · simp [hconcat]
    · intro r hr
      simp only [hconcat, List.mem_replicate] at hr
      simp [hr.2]
  | cons hab hrest ih =>
    rename_i w b ws0 bs0
    constructor
    · simp only [hconcat, List.length_zipWith, ih.1, hab.1]
      omega
    · intro r hr
      simp only [hconcat] at hr
      rcases mem_zipWith hr with ⟨x, hx, y, hy, hc⟩
      subst hc
      simp [hab.2 x hx, ih.2 y hy, List.sum_cons]

/-- Shape of a successful fit-transform result: the target vector is the
target column's values, the matrix has one row per target value, and every
matrix row's length is the total effective-pipeline width of the
non-target columns (given fixed-width transformers). -/
theorem fit_transform_ok_shape {tw : MTransformer → Nat}
    {defaultOf : String → List MTransformer} {cfg : ACConfig} {ds : Dataset}
    {m : Block} {tv : List String}
    (hfw : ∀ p ∈ ds, ∀ t ∈ pipelineFor defaultOf cfg.column_converters cfg.policy p.1,
      FixedWidth tw t)
    (h : fit_transform defaultOf cfg ds = .ok (m, tv)) :
    ds.lookup cfg.target = some tv ∧ m.length = tv.length ∧
      ∀ r ∈ m, r.length = matrixWidth tw defaultOf cfg.column_converters cfg.policy
        (ds.filter (fun p => p.1 ≠ cfg.target)) := by
  unfold fit_transform at h
  cases hlk : ds.lookup cfg.target with
  | none => rw [hlk] at h; exact absurd h (by simp)
  | some tvals =>
    rw [hlk] at h
    simp only at h
    cases hpc : processCols defaultOf cfg.column_converters cfg.policy tvals.length
        (ds.filter (fun p => p.1 ≠ cfg.target)) with
    | error e => rw [hpc] at h; exact absurd h (by simp)
    | ok blocks =>
      rw [hpc] at h
      simp only [Except.ok.injEq, Prod.mk.injEq] at h
      obtain ⟨hm, htv⟩ := h
      subst hm; subst htv
      have hfw2 : ∀ p ∈ ds.filter (fun p => p.1 ≠ cfg.target),
          ∀ t ∈ pipelineFor defaultOf cfg.column_converters cfg.policy p.1,
            FixedWidth tw t := by
        intro p hp
        exact hfw p (List.mem_of_mem_filter hp)
      have hf2 := processCols_ok_forall₂ hfw2 hpc
      have hsp := hconcat_spec hf2
      refine ⟨rfl, hsp.1, ?_⟩
      intro r hr
      rw [hsp.2 r hr]
      have : matrixWidth tw defaultOf cfg.column_converters cfg.policy
          (ds.filter (fun p => p.1 ≠ cfg.target)) =
          (blockWidths tw defaultOf cfg.column_converters cfg.policy
            (ds.filter (fun p => p.1 ≠ cfg.target))).sum := by
        generalize (ds.filter (fun p => p.1 ≠ cfg.target)) = l
        induction l with
        | nil => simp [matrixWidth, blockWidths]
        | cons q rest ihq =>
          simp [matrixWidth, blockWidths, pwidth] at ihq ⊢
          omega
      rw [this]

theorem transformRow_length (title_list : List String) (x : String) :
    (TitleEncoder.transformRow title_list x).length = title_list.length + 1 := by
  simp [TitleEncoder.transformRow]

theorem titleEncoder_transform_length (title_list X : List String) :
    (TitleEncoder.transform title_list X).length = X.length := by
  simp [TitleEncoder.transform]

theorem titleEncoderT_width (title_list : List String) :
    widthOf (titleEncoderT title_list) = title_list.length + 1 := by
  simp [widthOf, titleEncoderT, TitleEncoder.transform, ncols, TitleEncoder.transformRow]

theorem titleEncoderT_fixedWidth (title_list : List String) :
    FixedWidth widthOf (titleEncoderT title_list) := by
  intro vals b hb r hr
  simp only [titleEncoderT, Option.some.injEq] at hb
  subst hb
  simp only [TitleEncoder.transform, List.mem_map] at hr
  rcases hr with ⟨x, _, hx⟩
  rw [← hx, transformRow_length, titleEncoderT_width]

theorem mkConst_width (w : Nat) : widthOf (mkConst w) = w := by
  simp [widthOf, mkConst, ncols]

theorem mkConst_fixedWidth (w : Nat) : FixedWidth widthOf (mkConst w) := by
  intro vals b hb r hr
  simp only [mkConst, Option.some.injEq] at hb
  subst hb
  simp only [List.mem_map] at hr
  rcases hr with ⟨x, _, hx⟩
  rw [← hx, List.length_replicate, mkConst_width]

theorem mkConst_transform_length (w : Nat) (vals : List String) :
    ∃ b, (mkConst w).transform vals = some b ∧ b.length = vals.length :=
  ⟨_, rfl, by simp [mkConst]⟩

theorem titleEncoderT_transform_length (title_list vals : List String) :
    ∃ b, (titleEncoderT title_list).transform vals = some b ∧
      b.length = vals.length :=
  ⟨_, rfl, titleEncoder_transform_length title_list vals⟩

theorem lookup_mem {α β : Type} [BEq α] [LawfulBEq α] {k : α} {v : β} :
    ∀ {l : List (α × β)}, l.lookup k = some v → (k, v) ∈ l := by
  intro l
  induction l with
  | nil => intro h; simp [List.lookup] at h
  | cons p rest ih =>
    intro h
    obtain ⟨a, b⟩ := p
    simp only [List.lookup] at h
    cases heq : k == a with
    | true =>
      rw [heq] at h
      simp only [Option.some.injEq] at h
      subst h
      have hka : k = a := eq_of_beq heq
      subst hka
      simp
    | false =>
      rw [heq] at h
      exact List.mem_cons_of_mem _ (ih h)

theorem forall₂_mem_right {α β : Type} {R : α → β → Prop} :
    ∀ {l₁ : List α} {l₂ : List β}, List.Forall₂ R l₁ l₂ →
      ∀ b ∈ l₂, ∃ a ∈ l₁, R a b := by
  intro l₁ l₂ h
  induction h with
  | nil => intro b hb; simp at hb
  | cons hab _ ih =>
    intro b hb
    rcases List.mem_cons.1 hb with hb | hb
    · subst hb; exact ⟨_, by simp, hab⟩
    · rcases ih b hb with ⟨a, ha, hr⟩
      exact ⟨a, by simp [ha], hr⟩

theorem processCols_ok_len {defaultOf : String → List MTransformer}
    {ovs : List (String × List MTransformer)} {policy : MergePolicy}
    {N : Nat} {ds : Dataset} {bs : List Block}
    (h : processCols defaultOf ovs policy N ds = .ok bs) :
    ∀ b ∈ bs, b.length = N := by
  induction ds generalizing bs with
  | nil =>
    simp only [processCols, Except.ok.injEq] at h
    subst h; simp
  | cons p rest ih =>
    obtain ⟨c, vals⟩ := p
    simp only [processCols, bind, Except.bind] at h
    cases hap : applyPipeline N c vals (pipelineFor defaultOf ovs policy c) with
    | error e => rw [hap] at h; exact absurd h (by simp)
    | ok bs1 =>
      rw [hap] at h
      cases hpc : processCols defaultOf ovs policy N rest with
      | error e => rw [hpc] at h; exact absurd h (by simp)
      | ok bs2 =>
        rw [hpc] at h
        simp only [pure, Except.pure, Except.ok.injEq] at h
        subst h
        intro b hb
        rcases List.mem_append.1 hb with hb | hb
        · rcases forall₂_mem_right (applyPipeline_ok_forall₂ hap) b hb with ⟨t, _, _, hlen⟩
          exact hlen
        · exact ih hpc b hb

theorem hconcat_len {N : Nat} {bs : List Block}
    (h : ∀ b ∈ bs, b.length = N) : (hconcat N bs).length = N := by
  induction bs with
  | nil => simp [hconcat]
  | cons b rest ih =>
    simp only [hconcat, List.length_zipWith]
    rw [h b (by simp), ih (fun b hb => h b (by simp [hb]))]
    omega

theorem fit_transform_ok_of {tw : MTransformer → Nat}
    {defaultOf : String → List MTransformer} {cfg : ACConfig} {ds : Dataset}
    {tvals : List String}
    (hlk : ds.lookup cfg.target = some tvals)
    (hex : ∀ p ∈ ds.filter (fun p => p.1 ≠ cfg.target),
      ∀ t ∈ pipelineFor defaultOf cfg.column_converters cfg.policy p.1,
        ∃ b, t.transform p.2 = some b ∧ b.length = tvals.length)
    (hfw : ∀ p ∈ ds, ∀ t ∈ pipelineFor defaultOf cfg.column_converters cfg.policy p.1,
      FixedWidth tw t) :
    ∃ m, fit_transform defaultOf cfg ds = .ok (m, tvals) ∧
      m.length = tvals.length ∧
      ∀ r ∈ m, r.length = matrixWidth tw defaultOf cfg.column_converters cfg.policy
        (ds.filter (fun p => p.1 ≠ cfg.target)) := by
  rcases processCols_ok_of hex with ⟨bs, hbs⟩
  have hft : fit_transform defaultOf cfg ds = .ok (hconcat tvals.length bs, tvals) := by
    unfold fit_transform
    rw [hlk]
    simp only
    rw [hbs]
  have hs := fit_transform_ok_shape hfw hft
  exact ⟨_, hft, hs.2.1, hs.2.2⟩

theorem matrixWidth_merge (tw : MTransformer → Nat)
    (defaultOf : String → List MTransformer)
    (ovs : List (String × List MTransformer)) (ds : Dataset) :
    matrixWidth tw defaultOf ovs .Merge ds =
      overrideContribWidth tw ovs ds +
        matrixWidth tw defaultOf [] .Override ds := by
  induction ds with
  | nil => simp [matrixWidth, overrideContribWidth]
  | cons p rest ih =>
    have hmw : ∀ (pol : MergePolicy) (ov2 : List (String × List MTransformer)),
        matrixWidth tw defaultOf ov2 pol (p :: rest) =
          pwidth tw (pipelineFor defaultOf ov2 pol p.1) +
            matrixWidth tw defaultOf ov2 pol rest := by
      intro pol ov2
      simp [matrixWidth]
    have hoc : overrideContribWidth tw ovs (p :: rest) =
        (match ovs.lookup p.1 with
          | some ov => pwidth tw ov
          | none => 0) + overrideContribWidth tw ovs rest := by
      simp [overrideContribWidth]
    rw [hmw, hmw, hoc, ih]
    cases h : ovs.lookup p.1 with
    | none =>
      simp only [pipelineFor, h, List.lookup_nil]
      omega
    | some ov =>
      have hw : pwidth tw (defaultOf p.1 ++ ov) =
          pwidth tw (defaultOf p.1) + pwidth tw ov := by
        simp [pwidth]
      simp only [pipelineFor, h, List.lookup_nil, hw]
      omega

theorem example_default_fw :
    ∀ c, ∀ t ∈ exampleDefaultOf c, FixedWidth widthOf t := by
  intro c t ht
  simp only [exampleDefaultOf] at ht
  by_cases h1 : c = "Name"
  · rw [if_pos h1] at ht
    simp only [List.mem_singleton] at ht
    subst ht; exact mkConst_fixedWidth 511
  · rw [if_neg h1] at ht
    by_cases h2 : c = "OtherColumns"
    · rw [if_pos h2] at ht
      simp only [List.mem_singleton] at ht
      subst ht; exact mkConst_fixedWidth 704
    · rw [if_neg h2] at ht
      simp at ht

theorem example_default_rp :
    ∀ c, ∀ t ∈ exampleDefaultOf c, RowPreserving t := by
  intro c t ht
  simp only [exampleDefaultOf] at ht
  by_cases h1 : c = "Name"
  · rw [if_pos h1] at ht
    simp only [List.mem_singleton] at ht
    subst ht; exact fun vals => mkConst_transform_length 511 vals
  · rw [if_neg h1] at ht
    by_cases h2 : c = "OtherColumns"
    · rw [if_pos h2] at ht
      simp only [List.mem_singleton] at ht
      subst ht; exact fun vals => mkConst_transform_length 704 vals
    · rw [if_neg h2] at ht
      simp at ht

theorem example_pipeline_fw {ovs : List (String × List MTransformer)}
    {policy : MergePolicy}
    (hovs : ∀ q ∈ ovs, ∀ t ∈ q.2, FixedWidth widthOf t) :
    ∀ c, ∀ t ∈ pipelineFor exampleDefaultOf ovs policy c, FixedWidth widthOf t := by
  intro c t ht
  unfold pipelineFor at ht
  cases h : ovs.lookup c with
  | none =>
    rw [h] at ht
    exact example_default_fw c t ht
  | some ov =>
    rw [h] at ht
    have hov : ∀ u ∈ ov, FixedWidth widthOf u :=
      fun u hu => hovs (c, ov) (lookup_mem h) u hu
    cases policy with
    | Override => exact hov t ht
    | Merge =>
      rcases List.mem_append.1 ht with ht | ht
      · exact example_default_fw c t ht
      · exact hov t ht

theorem example_pipeline_rp {ovs : List (String × List MTransformer)}
    {policy : MergePolicy}
    (hovs : ∀ q ∈ ovs, ∀ t ∈ q.2, RowPreserving t) :
    ∀ c, ∀ t ∈ pipelineFor exampleDefaultOf ovs policy c, RowPreserving t := by
  intro c t ht
  unfold pipelineFor at ht
  cases h : ovs.lookup c with
  | none =>
    rw [h] at ht
    exact example_default_rp c t ht
  | some ov =>
    rw [h] at ht
    have hov : ∀ u ∈ ov, RowPreserving u :=
      fun u hu => hovs (c, ov) (lookup_mem h) u hu
    cases policy with
    | Override => exact hov t ht
    | Merge =>
      rcases List.mem_append.1 ht with ht | ht
      · exact example_default_rp c t ht
      · exact hov t ht

theorem exampleOverrides_fw :
    ∀ q ∈ exampleOverrides, ∀ t ∈ q.2, FixedWidth widthOf t := by
  intro q hq t ht
  simp only [exampleOverrides, List.mem_singleton] at hq
  subst hq
  simp only [List.mem_singleton] at ht
  subst ht
  exact titleEncoderT_fixedWidth _

theorem exampleOverrides_rp :
    ∀ q ∈ exampleOverrides, ∀ t ∈ q.2, RowPreserving t := by
  intro q hq t ht
  simp only [exampleOverrides, List.mem_singleton] at hq
  subst hq
  simp only [List.mem_singleton] at ht
  subst ht
  exact fun vals => titleEncoderT_transform_length _ vals

theorem exampleDS_col_length : ∀ p ∈ exampleDS, p.2.length = 881 := by
  intro p hp
  simp only [exampleDS, List.mem_cons, List.not_mem_nil, or_false] at hp
  rcases hp with hp | hp | hp <;> subst hp <;>
    exact List.length_replicate 881 _

theorem natSum_eq_zero_iff : ∀ {l : List Nat}, l.sum = 0 ↔ ∀ v ∈ l, v = 0 := by
  intro l
  induction l with
  | nil => simp
  | cons a l ih => simp [Nat.add_eq_zero, ih]

/-! ### Claim theorems -/

/-- C1: for every column, the effective pipeline the orchestrator's
fit-transform uses (`pipelineFor`, invoked per column by `processCols`
inside `fit_transform`) is the override list alone when the column has an
override entry and the policy is Override; the default list followed by
the override list when it has an override entry and the policy is Merge;
and the default list when it has no override entry. -/
theorem effective_pipeline_policy
    (defaultOf : String → List MTransformer)
    (ovs : List (String × List MTransformer)) (c : String) :
    (∀ ov, ovs.lookup c = some ov →
      pipelineFor defaultOf ovs .Override c = ov) ∧
    (∀ ov, ovs.lookup c = some ov →
      pipelineFor defaultOf ovs .Merge c = defaultOf c ++ ov) ∧
    (ovs.lookup c = none →
      ∀ policy, pipelineFor defaultOf ovs policy c = defaultOf c) := by
  refine ⟨?_, ?_, ?_⟩
  · intro ov h
    simp [pipelineFor, h]
  · intro ov h
    simp [pipelineFor, h]
  · intro h policy
    cases policy <;> simp [pipelineFor, h]

/-- Witness for C1 at the notebook's override table: column `"Name"` has
an override entry, column `"Age"` has none. -/
theorem effective_pipeline_policy_witness :
    pipelineFor exampleDefaultOf exampleOverrides .Override "Name" =
      [titleEncoderT TitleEncoder.default_title_list] ∧
    pipelineFor exampleDefaultOf exampleOverrides .Merge "Name" =
      exampleDefaultOf "Name" ++ [titleEncoderT TitleEncoder.default_title_list] ∧
    pipelineFor exampleDefaultOf exampleOverrides .Override "Age" =
      exampleDefaultOf "Age" :=
  ⟨(effective_pipeline_policy exampleDefaultOf exampleOverrides "Name").1 _ rfl,
   (effective_pipeline_policy exampleDefaultOf exampleOverrides "Name").2.1 _ rfl,
   (effective_pipeline_policy exampleDefaultOf exampleOverrides "Age").2.2 rfl .Override⟩

/-- C5: on any dataset whose columns all have N rows, a successful
fit-transform returns a matrix with exactly N rows and a target vector of
length N (success entails the target column exists). -/
theorem fit_transform_rows {defaultOf : String → List MTransformer}
    {cfg : ACConfig} {ds : Dataset} {m : Block} {tv : List String} {N : Nat}
    (hN : ∀ p ∈ ds, p.2.length = N)
    (h : fit_transform defaultOf cfg ds = .ok (m, tv)) :
    m.length = N ∧ tv.length = N := by
  unfold fit_transform at h
  cases hlk : ds.lookup cfg.target with
  | none => rw [hlk] at h; exact absurd h (by simp)
  | some tvals =>
    rw [hlk] at h
    simp only at h
    cases hpc : processCols defaultOf cfg.column_converters cfg.policy tvals.length
        (ds.filter (fun p => p.1 ≠ cfg.target)) with
    | error e => rw [hpc] at h; exact absurd h (by simp)
    | ok blocks =>
      rw [hpc] at h
      simp only [Except.ok.injEq, Prod.mk.injEq] at h
      obtain ⟨hm, htv⟩ := h
      have htl : tvals.length = N := hN _ (lookup_mem hlk)
      subst hm
      subst htv
      exact ⟨by rw [hconcat_len (processCols_ok_len hpc)]; exact htl, htl⟩

/-- Witness for C5: a 2-row dataset with target `"y"` and one feature
column processed by a width-1 default pipeline. -/
theorem fit_transform_rows_witness :
    ([[0], [0]] : Block).length = 2 ∧ (["a", "b"] : List String).length = 2 :=
  @fit_transform_rows (fun _ => [mkConst 1]) { target := "y" }
    [("y", ["a", "b"]), ("x", ["u", "v"])] [[0], [0]] ["a", "b"] 2
    (by decide) rfl

/-- C10: every entry of a block returned by the embedded
`TitleEncoder.transform` is 0 or 1, and the final column of each row is 1
exactly when all of the row's title-indicator columns are 0. -/
theorem titleEncoder_block_binary (title_list X : List String) :
    ∀ r ∈ TitleEncoder.transform title_list X,
      (∀ v ∈ r, v = 0 ∨ v = 1) ∧
      (r.getLast? = some 1 ↔ ∀ v ∈ r.dropLast, v = 0) := by
  intro r hr
  simp only [TitleEncoder.transform, List.mem_map] at hr
  rcases hr with ⟨x, _, hx⟩
  subst hx
  unfold TitleEncoder.transformRow
  simp only
  constructor
  · intro v hv
    rcases List.mem_append.1 hv with hv | hv
    · rcases List.mem_map.1 hv with ⟨t, _, ht⟩
      unfold TitleEncoder.titleIndicator at ht
      by_cases hc : strContains x t
      · rw [if_pos hc] at ht; right; exact ht.symm
      · rw [if_neg hc] at ht; left; exact ht.symm
    · simp only [List.mem_singleton] at hv
      by_cases hs : (title_list.map (fun t => TitleEncoder.titleIndicator t x)).sum = 0
      · rw [if_pos hs] at hv; right; exact hv
      · rw [if_neg hs] at hv; left; exact hv
  · rw [List.getLast?_concat, List.dropLast_concat]
    by_cases hs : (title_list.map (fun t => TitleEncoder.titleIndicator t x)).sum = 0
    · rw [if_pos hs]
      constructor
      · intro _
        exact natSum_eq_zero_iff.1 hs
      · intro _
        rfl
    · rw [if_neg hs]
      constructor
      · intro hcontra
        exact absurd hcontra (by simp)
      · intro hall
        exact absurd (natSum_eq_zero_iff.2 hall) hs

/-- Witness for C10: the default-constructed encoder on the one-cell
column `["Mr. A"]`; its block's single row is `[1, 0, 0, 0]`. -/
theorem titleEncoder_block_binary_witness :
    (∀ v ∈ ([1, 0, 0, 0] : List Nat), v = 0 ∨ v = 1) ∧
    (([1, 0, 0, 0] : List Nat).getLast? = some 1 ↔
      ∀ v ∈ ([1, 0, 0, 0] : List Nat).dropLast, v = 0) :=
  titleEncoder_block_binary TitleEncoder.default_title_list ["Mr. A"]
    [1, 0, 0, 0] (by decide)

/-- Counterexample to C4 as stated: the default-constructed
`TitleEncoder` declares 4 feature names, not 5 — the source's default
title list has three entries, because `"Ms." "Mrs."` are adjacent string
literals that concatenate. -/
theorem titleEncoder_names_not_five :
    (TitleEncoder.get_feature_names TitleEncoder.default_title_list).length = 4 ∧
      (4 : Nat) ≠ 5 := by
  constructor
  · rfl
  · decide

/-- C4 amended: the default-constructed `TitleEncoder` declares 4 feature
names, and its transform extracts 4 feature columns per row (3 title
indicators plus the fallback column). -/
theorem titleEncoder_names_and_block_width :
    (TitleEncoder.get_feature_names TitleEncoder.default_title_list).length = 4 ∧
    ∀ X : List String, ∀ r ∈ TitleEncoder.transform TitleEncoder.default_title_list X,
      r.length = 4 := by
  constructor
  · rfl
  · intro X r hr
    simp only [TitleEncoder.transform, List.mem_map] at hr
    rcases hr with ⟨x, _, hx⟩
    rw [← hx, transformRow_length]
    rfl

/-- Witness for C4 amended at the one-cell column `["Mrs. B"]` (no title
of the defaulted list occurs in the cell, so the fallback column fires). -/
theorem titleEncoder_names_and_block_width_witness :
    (TitleEncoder.get_feature_names TitleEncoder.default_title_list).length = 4 ∧
    ([0, 0, 0, 1] : List Nat).length = 4 :=
  ⟨titleEncoder_names_and_block_width.1,
   titleEncoder_names_and_block_width.2 ["Mrs. B"] [0, 0, 0, 1] (by decide)⟩

/-- C9 evaluated at a failing input: on the two-row column
`["a", "b"]`, the embedded `TransformerTemplate.transform` returns the
single-row block `[[1, 1]]` — row count 1, not the input row count 2 —
contradicting the contract its own comment states (`(N, M)` output). -/
theorem transformerTemplate_shape_bug :
    TransformerTemplate.transform ["a", "b"] = [[1, 1]] ∧
    (TransformerTemplate.transform ["a", "b"]).length = 1 ∧
    (1 : Nat) ≠ 2 := by
  refine ⟨rfl, rfl, by decide⟩

/-- C6: when a transformer's fit returns itself but its transform yields a
block whose row count differs from the column's row count N, the checker
reports ShapeMismatch with expected N and the actual row count — and, the
check being advisory and local, any orchestrator state passes through
unchanged. -/
theorem check_transformer_shape_mismatch {σ : Type} (s : σ) {ds : Dataset}
    {col : String} {t : MTransformer} {vals : List String} {b : Block}
    (hlk : ds.lookup col = some vals)
    (hfit : t.fitRes vals = .self)
    (htr : t.transform vals = some b)
    (hne : b.length ≠ vals.length) :
    check_transformer_run s ds col t =
      (.error (.ShapeMismatch vals.length b.length), s) := by
  unfold check_transformer_run check_transformer
  rw [hlk]
  simp [hfit, htr, hne]

/-- Witness for C6: a transformer returning two rows on a one-row
column. -/
theorem check_transformer_shape_mismatch_witness :
    check_transformer_run (0 : Nat) [("c", ["a"])] "c"
      ⟨fun _ => .self, fun _ => some [[1], [1]], none⟩ =
      (.error (.ShapeMismatch 1 2), 0) :=
  @check_transformer_shape_mismatch Nat 0 [("c", ["a"])] "c"
    ⟨fun _ => .self, fun _ => some [[1], [1]], none⟩ ["a"] [[1], [1]]
    rfl rfl rfl (by decide)

/-- Evaluation of the checker once the column lookup succeeds. -/
theorem check_transformer_eval_some {ds : Dataset} {col : String}
    {t : MTransformer} {vals : List String}
    (hlk : ds.lookup col = some vals) :
    check_transformer ds col t =
      (if t.fitRes vals ≠ .self then .error .NotSelfReturned
       else
         match t.transform vals with
         | none => .error .TransformRaised
         | some b =>
           if b.length ≠ vals.length then
             .error (.ShapeMismatch vals.length b.length)
           else
             match t.feature_names with
             | some f =>
               if (f vals).length ≠ ncols b then
                 .error (.FeatureNameLengthMismatch (ncols b) (f vals).length)
               else
                 .ok (b, f vals)
             | none => .ok (b, synthNames col (ncols b))) := by
  unfold check_transformer
  rw [hlk]

/-- C7: the checker reports NotSelfReturned for every transformer whose
fit does not return the transformer itself, and never reports it for the
packaged TitleEncoder, whose fit returns self. -/
theorem check_transformer_not_self {ds : Dataset} {col : String} :
    (∀ t : MTransformer, ∀ vals, ds.lookup col = some vals →
      t.fitRes vals ≠ .self →
      check_transformer ds col t = .error .NotSelfReturned) ∧
    (∀ title_list vals, ds.lookup col = some vals →
      check_transformer ds col (titleEncoderT title_list) ≠
        .error .NotSelfReturned) := by
  constructor
  · intro t vals hlk hf
    unfold check_transformer
    rw [hlk]
    simp [hf]
  · intro title_list vals hlk
    rw [check_transformer_eval_some hlk]
    rw [if_neg (by simp [titleEncoderT])]
    intro hcontra
    simp only [titleEncoderT] at hcontra
    split at hcontra
    · simp_all
    · split at hcontra <;> simp_all

/-- Witness for C7: a transformer whose fit returns a fresh object is
rejected; the default TitleEncoder is not. -/
theorem check_transformer_not_self_witness :
    check_transformer [("c", ["a"])] "c"
      ⟨fun _ => .otherObject, fun _ => some [[1]], none⟩ =
      .error .NotSelfReturned ∧
    check_transformer [("c", ["a"])] "c"
      (titleEncoderT TitleEncoder.default_title_list) ≠
      .error .NotSelfReturned :=
  ⟨(@check_transformer_not_self [("c", ["a"])] "c").1
      ⟨fun _ => .otherObject, fun _ => some [[1]], none⟩ ["a"] rfl (by decide),
   (@check_transformer_not_self [("c", ["a"])] "c").2
      TitleEncoder.default_title_list ["a"] rfl⟩

/-- C8: with fit and shape passing, a present naming capability whose
returned length differs from the output column count M yields
FeatureNameLengthMismatch{expected M, actual length}; an absent naming
capability still succeeds, returning exactly M synthesized positional
names. -/
theorem check_transformer_feature_names {ds : Dataset} {col : String}
    {t : MTransformer} {vals : List String} {b : Block}
    (hlk : ds.lookup col = some vals)
    (hfit : t.fitRes vals = .self)
    (htr : t.transform vals = some b)
    (hlen : b.length = vals.length) :
    (∀ f, t.feature_names = some f → (f vals).length ≠ ncols b →
      check_transformer ds col t =
        .error (.FeatureNameLengthMismatch (ncols b) (f vals).length)) ∧
    (t.feature_names = none →
      check_transformer ds col t = .ok (b, synthNames col (ncols b)) ∧
      (synthNames col (ncols b)).length = ncols b) := by
  constructor
  · intro f hf hne
    unfold check_transformer
    rw [hlk]
    simp [hfit, htr, hlen, hf, hne]
  · intro hf
    refine ⟨?_, by simp [synthNames]⟩
    unfold check_transformer
    rw [hlk]
    simp [hfit, htr, hlen, hf]

/-- Witness for C8: a 1 × 2 block with a one-name naming capability is
rejected with FeatureNameLengthMismatch{2, 1}; the same block without
naming succeeds with the two synthesized names. -/
theorem check_transformer_feature_names_witness :
    check_transformer [("c", ["x"])] "c"
      ⟨fun _ => .self, fun _ => some [[1, 2]], some (fun _ => ["a"])⟩ =
      .error (.FeatureNameLengthMismatch 2 1) ∧
    (check_transformer [("c", ["x"])] "c"
      ⟨fun _ => .self, fun _ => some [[1, 2]], none⟩ =
      .ok ([[1, 2]], synthNames "c" 2) ∧
      (synthNames "c" 2).length = 2) :=
  ⟨(@check_transformer_feature_names [("c", ["x"])] "c"
      ⟨fun _ => .self, fun _ => some [[1, 2]], some (fun _ => ["a"])⟩ ["x"] [[1, 2]]
      rfl rfl rfl rfl).1 (fun _ => ["a"]) rfl (by decide),
   (@check_transformer_feature_names [("c", ["x"])] "c"
      ⟨fun _ => .self, fun _ => some [[1, 2]], none⟩ ["x"] [[1, 2]]
      rfl rfl rfl rfl).2 rfl⟩

/-- Run of the orchestrator on the modelled example with any of the
notebook's three configurations: it succeeds, the matrix has 881 rows and
every row has the the total effective-pipeline width. -/
theorem example_run (cfg : ACConfig) (hc : cfg.target = "Survived")
    (hovs : cfg.column_converters = exampleOverrides ∨ cfg.column_converters = []) :
    ∃ m, fit_transform exampleDefaultOf cfg exampleDS =
        .ok (m, List.replicate 881 "0") ∧
      m.length = 881 ∧
      ∀ r ∈ m, r.length =
        matrixWidth widthOf exampleDefaultOf cfg.column_converters cfg.policy
          (exampleDS.filter (fun p => p.1 ≠ cfg.target)) := by
  have hovfw : ∀ q ∈ cfg.column_converters, ∀ t ∈ q.2, FixedWidth widthOf t := by
    rcases hovs with h | h <;> rw [h]
    · exact exampleOverrides_fw
    · simp
  have hovrp : ∀ q ∈ cfg.column_converters, ∀ t ∈ q.2, RowPreserving t := by
    rcases hovs with h | h <;> rw [h]
    · exact exampleOverrides_rp
    · simp
  have hlk : exampleDS.lookup cfg.target = some (List.replicate 881 "0") := by
    rw [hc]
    rfl
  have hex : ∀ p ∈ exampleDS.filter (fun p => p.1 ≠ cfg.target),
      ∀ t ∈ pipelineFor exampleDefaultOf cfg.column_converters cfg.policy p.1,
        ∃ b, t.transform p.2 = some b ∧
          b.length = (List.replicate 881 "0").length := by
    intro p hp t ht
    rcases example_pipeline_rp hovrp p.1 t ht p.2 with ⟨b, hb, hblen⟩
    refine ⟨b, hb, ?_⟩
    rw [hblen, exampleDS_col_length p (List.mem_of_mem_filter hp),
      List.length_replicate]
  have hfw : ∀ p ∈ exampleDS,
      ∀ t ∈ pipelineFor exampleDefaultOf cfg.column_converters cfg.policy p.1,
        FixedWidth widthOf t :=
    fun p _ t ht => example_pipeline_fw hovfw p.1 t ht
  rcases fit_transform_ok_of hlk hex hfw with ⟨m, hft, hml, hw⟩
  exact ⟨m, hft, by rw [hml, List.length_replicate], hw⟩

/-- C2: on the modelled 881-row example dataset with target
`"Survived"`, fit-transform with no overrides yields shape (881, 1215);
overriding `"Name"` with the default-constructed TitleEncoder under the
Override policy yields (881, 708); the same override under the Merge
policy yields (881, 1219). -/
theorem example_shapes :
    (∃ m y, fit_transform exampleDefaultOf exampleBaseCfg exampleDS = .ok (m, y) ∧
      m.length = 881 ∧ y.length = 881 ∧ ∀ r ∈ m, r.length = 1215) ∧
    (∃ m y, fit_transform exampleDefaultOf exampleOverrideCfg exampleDS = .ok (m, y) ∧
      m.length = 881 ∧ y.length = 881 ∧ ∀ r ∈ m, r.length = 708) ∧
    (∃ m y, fit_transform exampleDefaultOf exampleMergeCfg exampleDS = .ok (m, y) ∧
      m.length = 881 ∧ y.length = 881 ∧ ∀ r ∈ m, r.length = 1219) := by
  refine ⟨?_, ?_, ?_⟩
  · rcases example_run exampleBaseCfg rfl (Or.inr rfl) with ⟨m, hft, hml, hw⟩
    refine ⟨m, _, hft, hml, List.length_replicate 881 _, ?_⟩
    intro r hr
    rw [hw r hr]
    decide
  · rcases example_run exampleOverrideCfg rfl (Or.inl rfl) with ⟨m, hft, hml, hw⟩
    refine ⟨m, _, hft, hml, List.length_replicate 881 _, ?_⟩
    intro r hr
    rw [hw r hr]
    decide
  · rcases example_run exampleMergeCfg rfl (Or.inl rfl) with ⟨m, hft, hml, hw⟩
    refine ⟨m, _, hft, hml, List.length_replicate 881 _, ?_⟩
    intro r hr
    rw [hw r hr]
    decide

/-- Counterexample to C3 as stated: at the recorded example widths the
claimed identity fails.  The Merge matrix is 1219 wide, the override
pipelines of the overridden columns contribute 4, the baseline matrix is
1215 wide, and the overridden columns' default pipelines are 511 wide —
but 1219 ≠ 4 + (1215 − 511) = 708 (the right-hand side is the
Override-policy width, not the Merge width). -/
theorem merge_width_formula_fails :
    (∃ m y, fit_transform exampleDefaultOf exampleMergeCfg exampleDS = .ok (m, y) ∧
      m.length = 881 ∧ ∀ r ∈ m, r.length = 1219) ∧
    overrideContribWidth widthOf exampleOverrides
      (exampleDS.filter (fun p => p.1 ≠ "Survived")) = 4 ∧
    (∃ m y, fit_transform exampleDefaultOf exampleBaseCfg exampleDS = .ok (m, y) ∧
      ∀ r ∈ m, r.length = 1215) ∧
    replacedDefaultWidth widthOf exampleDefaultOf exampleOverrides
      (exampleDS.filter (fun p => p.1 ≠ "Survived")) = 511 ∧
    (1219 : Nat) ≠ 4 + (1215 - 511) := by
  refine ⟨?_, by decide, ?_, by decide, by decide⟩
  · rcases example_run exampleMergeCfg rfl (Or.inl rfl) with ⟨m, hft, hml, hw⟩
    refine ⟨m, _, hft, hml, ?_⟩
    intro r hr
    rw [hw r hr]
    decide
  · rcases example_run exampleBaseCfg rfl (Or.inr rfl) with ⟨m, hft, hml, hw⟩
    refine ⟨m, _, hft, ?_⟩
    intro r hr
    rw [hw r hr]
    decide

/-- C3 amended: under the Merge policy no default pipeline is replaced
(the replaced default width is 0), so the Merge matrix width equals the
override pipelines' contribution for the overridden columns plus the
baseline (no-override) matrix width; the subtraction of the overridden
columns' default width instead yields the Override-policy width. -/
theorem merge_width_eq {tw : MTransformer → Nat}
    {defaultOf : String → List MTransformer} {tgt : String}
    {ovs : List (String × List MTransformer)} {ds : Dataset}
    {m0 m1 : Block} {y0 y1 : List String}
    (hfw : ∀ c, ∀ t ∈ defaultOf c, FixedWidth tw t)
    (hfwo : ∀ q ∈ ovs, ∀ t ∈ q.2, FixedWidth tw t)
    (h0 : fit_transform defaultOf { target := tgt } ds = .ok (m0, y0))
    (h1 : fit_transform defaultOf
      { target := tgt, column_converters := ovs,
        use_column_converter_only := false } ds = .ok (m1, y1))
    {r0 r1 : List Nat} (hr0 : r0 ∈ m0) (hr1 : r1 ∈ m1) :
    r1.length =
      overrideContribWidth tw ovs (ds.filter (fun p => p.1 ≠ tgt)) + r0.length := by
  have hfw0 : ∀ p ∈ ds,
      ∀ t ∈ pipelineFor defaultOf ([] : List (String × List MTransformer))
        MergePolicy.Override p.1, FixedWidth tw t := by
    intro p _ t ht
    simp only [pipelineFor, List.lookup_nil] at ht
    exact hfw p.1 t ht
  have hfw1 : ∀ p ∈ ds, ∀ t ∈ pipelineFor defaultOf ovs MergePolicy.Merge p.1,
      FixedWidth tw t := by
    intro p _ t ht
    unfold pipelineFor at ht
    cases h : ovs.lookup p.1 with
    | none =>
      rw [h] at ht
      exact hfw p.1 t ht
    | some ov =>
      rw [h] at ht
      rcases List.mem_append.1 ht with ht | ht
      · exact hfw p.1 t ht
      · exact hfwo (p.1, ov) (lookup_mem h) t ht
  have hs0 := fit_transform_ok_shape hfw0 h0
  have hs1 := fit_transform_ok_shape hfw1 h1
  rw [hs1.2.2 r1 hr1, hs0.2.2 r0 hr0]
  exact matrixWidth_merge tw defaultOf ovs (ds.filter (fun p => p.1 ≠ tgt))

/-- Witness for C3 amended: a one-row dataset with a width-2 default
pipeline and a width-3 override pipeline merged in — 5 = 3 + 2. -/
theorem merge_width_eq_witness :
    ([0, 0, 0, 0, 0] : List Nat).length =
      overrideContribWidth widthOf [("c", [mkConst 3])]
        (([("y", ["0"]), ("c", ["v"])] : Dataset).filter (fun p => p.1 ≠ "y")) +
      ([0, 0] : List Nat).length :=
  @merge_width_eq widthOf (fun _ => [mkConst 2]) "y" [("c", [mkConst 3])]
    [("y", ["0"]), ("c", ["v"])] [[0, 0]] [[0, 0, 0, 0, 0]] ["0"] ["0"]
    (by
      intro c t ht
      simp only [List.mem_singleton] at ht
      subst ht
      exact mkConst_fixedWidth 2)
    (by
      intro q hq t ht
      simp only [List.mem_singleton] at hq
      subst hq
      simp only [List.mem_singleton] at ht
      subst ht
      exact mkConst_fixedWidth 3)
    rfl rfl [0, 0] [0, 0, 0, 0, 0] (by decide) (by decide)

end Learnit
